import Mathlib

/-!
# Verification of the Compgraph streaming engine

Shallow embedding of the core of `compgraph` (a library of computational
graphs over streams of schemaless rows) and proofs about it.

* `src/compgraph/operations.py` — the row/value model, `Reduce`, `Join`,
  `Joiner.join` (the column-collision merge rule), `InnerJoiner`,
  `OuterJoiner`, the `Speed` mapper, `ReadIterFactory`.
* `src/compgraph/graph.py` — the `Graph` builder and the `run` executor.

Python rows are dicts from column names to dynamically typed values; the
embedding represents a row as an association list in insertion order (first
binding of a key is its value, as in a dict).  The value domain covers the
scalar values exercised by the verified properties: null, booleans, integers,
floats (idealized as rationals) and strings; sequence and nested-row values,
which no verified property touches, are omitted.  Streams are embedded as
lists, with a generator's deferred failure embedded eagerly: a computation
that would raise at some point of the iteration is a single `Except.error`.
-/

namespace Compgraph

/-- A dynamically typed column value (Python scalar). Floats are idealized as
rationals; no verified property depends on rounding. -/
inductive Value where
  | null : Value
  | bool : Bool → Value
  | int : Int → Value
  | float : ℚ → Value
  | str : String → Value
deriving DecidableEq, Repr

/-- Python exceptions that the embedded code can raise. All of them are bare
exception values carrying no row data, exactly like the `KeyError`,
`TypeError`, `ZeroDivisionError` and `IndexError` the source lets escape. -/
inductive PyErr where
  | keyError : PyErr
  | typeError : PyErr
  | zeroDivisionError : PyErr
  | indexError : PyErr
deriving DecidableEq, Repr

/-- A row: a Python dict from column name to value, embedded as an
association list in insertion order (the first binding of a key wins). -/
abbrev Row := List (String × Value)

/-- The empty row `{}`. -/
def emptyRow : Row := []

/-- Dict lookup: the value bound to column `k`, if present. -/
def rowGet : Row → String → Option Value
  | [], _ => none
  | (k', v) :: r, k => if k' = k then some v else rowGet r k

/-- `k in row` (Python containment test). -/
def hasKey (r : Row) (k : String) : Bool :=
  (rowGet r k).isSome

/-- Dict assignment `row[k] = v`: overwrite in place if present, else append
(Python dicts keep the original position of an overwritten key). -/
def rowSet (r : Row) (k : String) (v : Value) : Row :=
  if hasKey r k then r.map (fun p => if p.1 = k then (k, v) else p) else r ++ [(k, v)]

/-- `dict.update`: fold assignment over the entries of `u` in order. -/
def rowUpdate (r u : Row) : Row :=
  u.foldl (fun acc p => rowSet acc p.1 p.2) r

/-- Numeric view of a value, following Python's numeric tower: `bool` is an
`int` subtype (`True == 1`), ints and floats compare numerically. `none`
means the value is not numeric. -/
def toRat? : Value → Option ℚ
  | .bool b => some (if b then 1 else 0)
  | .int n => some (n : ℚ)
  | .float q => some q
  | _ => none

/-- Python `==` on values: numeric equality inside the numeric band, string
equality, `None == None`; values of different categories are unequal (never
an error). -/
def pyEq (a b : Value) : Bool :=
  match a, b with
  | .null, .null => true
  | .str s, .str t => s = t
  | _, _ =>
    match toRat? a, toRat? b with
    | some x, some y => x = y
    | _, _ => false

/-- Python `<` on values: defined inside the numeric band and between
strings; any other pair (including `None`) raises `TypeError`. -/
def pyLt (a b : Value) : Except PyErr Bool :=
  match a, b with
  | .str s, .str t => .ok (decide (s < t))
  | _, _ =>
    match toRat? a, toRat? b with
    | some x, some y => .ok (decide (x < y))
    | _, _ => .error .typeError

/-- Python `==` on tuples of values (used by `groupby` to delimit runs). -/
def pyEqList : List Value → List Value → Bool
  | [], [] => true
  | a :: as_, b :: bs => pyEq a b && pyEqList as_ bs
  | _, _ => false

/-- Python `<` on tuples: skip elements that compare `==`, decide at the
first unequal pair with `<` (which may raise); a strict prefix is smaller. -/
def tupLt : List Value → List Value → Except PyErr Bool
  | [], [] => .ok false
  | [], _ :: _ => .ok true
  | _ :: _, [] => .ok false
  | a :: as_, b :: bs => if pyEq a b then tupLt as_ bs else pyLt a b

/-- `tuple(row[k] for k in keys)` — the key tuple used for grouping in
`Reduce` (operations.py line 82) and `Join` (lines 125–126).  A missing
column raises `KeyError`. -/
def keyTuple (keys : List String) (r : Row) : Except PyErr (List Value) :=
  match keys with
  | [] => .ok []
  | k :: ks =>
    match rowGet r k with
    | some v => (keyTuple ks r).map (fun vs => v :: vs)
    | none => .error .keyError

/-- `itertools.groupby(rows, key)` with the key-tuple key function: the
maximal consecutive runs of rows whose key tuples compare `==`, each tagged
with the key tuple of its first row.  The source computes keys lazily as the
stream is consumed; the embedding computes them eagerly, which agrees with
the source on every fully consumed stream. -/
def groupRuns (keys : List String) : List Row → Except PyErr (List (List Value × List Row))
  | [] => .ok []
  | r :: rest => do
    let k ← keyTuple keys r
    let gs ← groupRuns keys rest
    match gs with
    | (k', g) :: gs' =>
      if pyEqList k k' then .ok ((k, r :: g) :: gs') else .ok ((k, [r]) :: (k', g) :: gs')
    | [] => .ok [(k, [r])]

/-- `Reduce.__call__` (operations.py lines 76–84): for each maximal equal-key
run invoke the reducer with the key names and the run, concatenating the
produced rows. -/
def reduceRun (red : List String → List Row → List Row) (keys : List String)
    (rows : List Row) : Except PyErr (List Row) :=
  (groupRuns keys rows).map (fun gs => gs.flatMap (fun g => red keys g.2))

/-- `FirstReducer` (operations.py lines 158–163): yield only the first row of
the run. -/
def firstReducer : List String → List Row → List Row :=
  fun _ rows => rows.take 1

/-- `non_key_columns` in `Joiner.join` (operations.py line 103):
`set(row_a.keys()).intersection(row_b.keys()) - set(keys)`.  The source
iterates this set in unspecified hash order; the embedding fixes the order of
`row_a`'s columns, which no verified statement depends on. -/
def nonKeyCols (keys : List String) (ra rb : Row) : List String :=
  (ra.map Prod.fst).filter (fun k => hasKey rb k && !(keys.contains k))

/-- `merge_common_columns` (operations.py lines 105–106):
`{key + suffix: row[key] for key in non_key_columns}`.  Every `k` in the
column set is present in `row`, so the `.getD .null` default is never
consulted. -/
def mergeCommonCols (nk : List String) (r : Row) (suffix : String) : Row :=
  nk.map (fun k => (k ++ suffix, (rowGet r k).getD .null))

/-- `merge_non_key_columns` (operations.py lines 108–109):
`{key: row[key] for key in row.keys() if key not in non_key_columns}`. -/
def mergeNonKeyCols (nk : List String) (r : Row) : Row :=
  r.filter (fun p => !(nk.contains p.1))

/-- `Joiner.join` (operations.py lines 102–116): start from `{}` and
`dict.update` with, in order, `row_a` and `row_b` without their collision
columns, then the collision columns of `row_a` suffixed with `suffix_a` and
of `row_b` suffixed with `suffix_b`. -/
def joinerJoin (sa sb : String) (keys : List String) (ra rb : Row) : Row :=
  let nk := nonKeyCols keys ra rb
  rowUpdate (rowUpdate (rowUpdate (rowUpdate emptyRow (mergeNonKeyCols nk ra))
    (mergeNonKeyCols nk rb)) (mergeCommonCols nk ra sa)) (mergeCommonCols nk rb sb)

/-- `InnerJoiner.__call__` (operations.py lines 541–548): materialize the
right group, and for every pair yield the merged row guarded by Python
truthiness `if second_row and first_row` — a pair is skipped whenever either
row is the empty dict. -/
def innerJoiner (sa sb : String) (keys : List String) (rowsA rowsB : List Row) : List Row :=
  rowsA.flatMap (fun a =>
    rowsB.filterMap (fun b =>
      if !b.isEmpty && !a.isEmpty then some (joinerJoin sa sb keys a b) else none))

/-- `OuterJoiner.__call__` (operations.py lines 551–568): if the right group
is non-empty, emit the full cross product (the `flag` variable stays `True`
exactly when the left group was empty, in which case the right rows are then
emitted against `{}`); if the right group is empty, emit the left rows
against `{}`. -/
def outerJoiner (sa sb : String) (keys : List String) (rowsA rowsB : List Row) : List Row :=
  if rowsB.length ≠ 0 then
    rowsA.flatMap (fun a => rowsB.map (fun b => joinerJoin sa sb keys a b)) ++
      (if rowsA.isEmpty then rowsB.map (fun b => joinerJoin sa sb keys emptyRow b) else [])
  else
    rowsA.map (fun a => joinerJoin sa sb keys a emptyRow)

/-- The merge loop of `Join.__call__` (operations.py lines 132–146), on the
already-grouped streams.  The current `(key, group)` cursor of each side is
the head of its list; `(None, None)` after exhaustion is the empty list.  The
loop first evaluates `first_key < second_key` (which may raise), then
`second_key < first_key`, and otherwise joins both groups and advances both;
the `group is not None` tests of the source are vacuous because group and key
are always `None` together. -/
def joinLoopF (J : List String → List Row → List Row → List Row) (keys : List String) :
    Nat → List (List Value × List Row) → List (List Value × List Row) →
    Except PyErr (List Row)
  | _, [], [] => .ok []
  | 0, _, _ => .ok []
  | n + 1, (_, A) :: ga, [] => do
    let rest ← joinLoopF J keys n ga []
    .ok (J keys A [emptyRow] ++ rest)
  | n + 1, [], (_, B) :: gb => do
    let rest ← joinLoopF J keys n [] gb
    .ok (J keys [emptyRow] B ++ rest)
  | n + 1, (ka, A) :: ga, (kb, B) :: gb => do
    let ltab ← tupLt ka kb
    if ltab then do
      let rest ← joinLoopF J keys n ga ((kb, B) :: gb)
      .ok (J keys A [emptyRow] ++ rest)
    else do
      let ltba ← tupLt kb ka
      if ltba then do
        let rest ← joinLoopF J keys n ((ka, A) :: ga) gb
        .ok (J keys [emptyRow] B ++ rest)
      else do
        let rest ← joinLoopF J keys n ga gb
        .ok (J keys A B ++ rest)

/-- The merge loop with exactly enough fuel: each iteration of the source's
`while` loop consumes at least one group, so the total group count bounds the
iteration count and the zero-fuel branch of `joinLoopF` is never taken. -/
def joinLoop (J : List String → List Row → List Row → List Row) (keys : List String)
    (ga gb : List (List Value × List Row)) : Except PyErr (List Row) :=
  joinLoopF J keys (ga.length + gb.length) ga gb

/-- `Join.__call__` (operations.py lines 119–146): group both sorted streams
by the key tuple and run the merge loop. -/
def joinRun (J : List String → List Row → List Row → List Row) (keys : List String)
    (A B : List Row) : Except PyErr (List Row) := do
  let ga ← groupRuns keys A
  let gb ← groupRuns keys B
  joinLoop J keys ga gb

/-- The lockstep walk in the words of the specification (§4.5): equal current
key tuples — call the joiner on both groups and advance both; `A`'s key
smaller or `B` exhausted — call the joiner with a single empty row `[{}]` on
the right and advance `A`; symmetrically for `B`; the output is the
concatenation of the joiner's outputs in this order. -/
def joinWalk (J : List String → List Row → List Row → List Row) (keys : List String) :
    List (List Value × List Row) → List (List Value × List Row) → List Row
  | [], [] => []
  | (_, A) :: ga, [] => J keys A [emptyRow] ++ joinWalk J keys ga []
  | [], (_, B) :: gb => J keys [emptyRow] B ++ joinWalk J keys [] gb
  | (ka, A) :: ga, (kb, B) :: gb =>
    if pyEqList ka kb then J keys A B ++ joinWalk J keys ga gb
    else if (tupLt ka kb).toOption = some true then
      J keys A [emptyRow] ++ joinWalk J keys ga ((kb, B) :: gb)
    else J keys [emptyRow] B ++ joinWalk J keys ((ka, A) :: ga) gb
termination_by ga gb => ga.length + gb.length

/-- The stream's key tuples are nondecreasing: no adjacent pair compares
strictly descending, and all adjacent comparisons are defined. -/
def ascChain : List (List Value) → Bool
  | [] => true
  | [_] => true
  | a :: b :: rest =>
    (match tupLt b a with | .ok false => true | _ => false) && ascChain (b :: rest)

/-- The stream is sorted ascending by the key tuples of `keys`. -/
def sortedByKeys (keys : List String) (rows : List Row) : Bool :=
  match rows.mapM (fun r => keyTuple keys r) with
  | .ok ks => ascChain ks
  | .error _ => false

/-- `row[k]`: dict item access, raising `KeyError` when absent. -/
def getItem (r : Row) (k : String) : Except PyErr Value :=
  match rowGet r k with
  | some v => .ok v
  | none => .error .keyError

/-- Python `/`: true division.  Operand types are checked first
(`TypeError`), then the divisor is checked for zero (`ZeroDivisionError`);
the quotient of two numbers is always a float. -/
def pyDiv (a b : Value) : Except PyErr ℚ :=
  match toRat? a, toRat? b with
  | some x, some y => if y = 0 then .error .zeroDivisionError else .ok (x / y)
  | _, _ => .error .typeError

/-- `Speed.__call__` (operations.py lines 310–315): look up the distance and
time columns, compute `row[distance] / row[time] * 3600` (a float times an
int is a float) and yield one copy of the row with the result column set. -/
def speedRun (distance time resultColumn : String) (r : Row) : Except PyErr (List Row) := do
  let d ← getItem r distance
  let t ← getItem r time
  let q ← pyDiv d t
  .ok [rowSet r resultColumn (.float (q * 3600))]

/-- An operator node of a graph.  Mappers may raise (e.g. `Speed`); reducers
and joiners, as configured by the verified claims, are pure. -/
inductive Op where
  | readIter : String → Op
  | map : (Row → Except PyErr (List Row)) → Op
  | reduce : (List String → List Row → List Row) → List String → Op
  | sort : List String → Op
  | join : (List String → List Row → List Row → List Row) → List String → Op

/-- `Map.__call__` (operations.py lines 60–63): concatenate the mapper's
output over the stream, surfacing the first raised exception. -/
def mapRun (m : Row → Except PyErr (List Row)) : List Row → Except PyErr (List Row)
  | [] => .ok []
  | r :: rest => do
    let a ← m r
    let b ← mapRun m rest
    .ok (a ++ b)

/-- Stable insertion of a keyed row into an already-sorted keyed list: the
row goes after every row it is not strictly smaller than. -/
def insertAsc (p : List Value × Row) :
    List (List Value × Row) → Except PyErr (List (List Value × Row))
  | [] => .ok [p]
  | q :: rest => do
    let lt ← tupLt p.1 q.1
    if lt then .ok (p :: q :: rest) else (insertAsc p rest).map (q :: ·)

/-- Modelled from the spec: `external_sort.py` (`ExternalSort`, imported by
`graph.py` but absent from `src/`) sorts the stream by key tuple ascending
and is stable on ties (spec §4.4); the spill/merge mechanics are not
observable in the row semantics. -/
def sortRun (keys : List String) (rows : List Row) : Except PyErr (List Row) := do
  let keyed ← rows.mapM (fun r => (keyTuple keys r).map (fun k => (k, r)))
  let sorted ← keyed.foldlM (fun acc p => insertAsc p acc) ([] : List (List Value × Row))
  .ok (sorted.map Prod.snd)

/-- Running a non-source operator on the current stream.  A source operator
in a non-head position would be invoked with a positional stream argument it
does not accept (`TypeError`); the builder API never constructs that. -/
def opRun : Op → List Row → Except PyErr (List Row)
  | .map m, rows => mapRun m rows
  | .reduce red keys, rows => reduceRun red keys rows
  | .sort keys, rows => sortRun keys rows
  | .readIter _, _ => .error .typeError
  | .join _ _, _ => .error .typeError

/-- A graph value: the linear operator list plus one side-graph per `Join`
node, in order (graph.py lines 8–20). -/
inductive Graph where
  | mk : List Op → List Graph → Graph

/-- The operator list of a graph. -/
def Graph.operations : Graph → List Op
  | .mk ops _ => ops

/-- The side-graph list of a graph. -/
def Graph.graphsToJoin : Graph → List Graph
  | .mk _ joins => joins

/-- `ReadIterFactory.__call__` (operations.py lines 34–40) invoked as the
head operator of `Graph.run`: look up the source name in the kwargs map and
yield its rows; an unknown name raises `KeyError`. -/
def runSourceOp (op : Op) (kwargs : List (String × List Row)) : Except PyErr (List Row) :=
  match op with
  | .readIter n =>
    match kwargs.lookup n with
    | some rows => .ok rows
    | none => .error .keyError
  | _ => .error .typeError

mutual

/-- `Graph.run` (graph.py lines 73–84): invoke the head operator with the
source map, then thread the stream through the remaining operators,
recursively running the next side-graph at each `Join` node.  An empty
operator list would index past the end (`IndexError`). -/
def Graph.run : Graph → List (String × List Row) → Except PyErr (List Row)
  | .mk ops joins, kwargs =>
    match ops with
    | [] => .error .indexError
    | o :: rest => do
      let data ← runSourceOp o kwargs
      runRest rest joins kwargs data

/-- The operator loop of `Graph.run`, with `join_index` represented by
consuming the side-graph list in order; a `Join` with no side-graph left
indexes past the end (`IndexError`). -/
def runRest : List Op → List Graph → List (String × List Row) → List Row →
    Except PyErr (List Row)
  | [], _, _, data => .ok data
  | .join J keys :: rest, joins, kwargs, data =>
    match joins with
    | [] => .error .indexError
    | g :: gs => do
      let dataToJoin ← Graph.run g kwargs
      let merged ← joinRun J keys data dataToJoin
      runRest rest gs kwargs merged
  | o :: rest, joins, kwargs, data => do
    let next ← opRun o data
    runRest rest joins kwargs next

end

/-- A graph object on the Python heap, its side-graphs held by reference. -/
structure GraphObj where
  operations : List Op
  graphsToJoin : List Nat

/-- The heap: graph objects addressed by allocation index.  The builder
methods of `graph.py` only read `self` and allocate —
`Graph(self.operations + [operation], self.graphs_to_join)` — which the
embedding mirrors by appending a fresh object to the store. -/
abbrev Store := List GraphObj

/-- `Graph.map` (graph.py lines 42–47) on the heap: allocate a graph whose
operator list extends the receiver's with a `Map` node.  A dangling
reference leaves the store unchanged (never produced by the API). -/
def graphMapB (s : Store) (r : Nat) (m : Row → Except PyErr (List Row)) : Store × Nat :=
  match s[r]? with
  | some g => (s ++ [{ g with operations := g.operations ++ [Op.map m] }], s.length)
  | none => (s, r)

/-- `Graph.reduce` (graph.py lines 49–55) on the heap. -/
def graphReduceB (s : Store) (r : Nat) (red : List String → List Row → List Row)
    (keys : List String) : Store × Nat :=
  match s[r]? with
  | some g => (s ++ [{ g with operations := g.operations ++ [Op.reduce red keys] }], s.length)
  | none => (s, r)

/-- `Graph.sort` (graph.py lines 57–62) on the heap. -/
def graphSortB (s : Store) (r : Nat) (keys : List String) : Store × Nat :=
  match s[r]? with
  | some g => (s ++ [{ g with operations := g.operations ++ [Op.sort keys] }], s.length)
  | none => (s, r)

/-- `Graph.join` (graph.py lines 64–71) on the heap: extend both the
operator list and the side-graph list. -/
def graphJoinB (s : Store) (r : Nat) (J : List String → List Row → List Row → List Row)
    (keys : List String) (other : Nat) : Store × Nat :=
  match s[r]? with
  | some g => (s ++ [{ operations := g.operations ++ [Op.join J keys],
                       graphsToJoin := g.graphsToJoin ++ [other] }], s.length)
  | none => (s, r)

/-! ## Helper lemmas -/

theorem rowGet_eq_none_iff (r : Row) (k : String) :
    rowGet r k = none ↔ k ∉ r.map Prod.fst := by
  induction r with
  | nil => simp [rowGet]
  | cons p r ih =>
    by_cases h : p.1 = k
    · simp [rowGet, h]
    · have h' : ¬k = p.1 := fun e => h e.symm
      simp [rowGet, h, h', ih]

theorem hasKey_iff_mem (r : Row) (k : String) :
    hasKey r k = true ↔ k ∈ r.map Prod.fst := by
  rw [hasKey, Option.isSome_iff_ne_none, ne_eq, rowGet_eq_none_iff, not_not]

theorem rowGet_map_overwrite (r : Row) (k : String) (v : Value) (k' : String) :
    rowGet (r.map (fun p => if p.1 = k then (k, v) else p)) k' =
      if k = k' then (rowGet r k).map (fun _ => v) else rowGet r k' := by
  induction r with
  | nil => by_cases h : k = k' <;> simp [rowGet, h]
  | cons p r ih =>
    simp only [List.map_cons]
    by_cases hpk : p.1 = k
    · rw [if_pos hpk]
      by_cases hkk : k = k'
      · subst hkk
        simp [rowGet, hpk]
      · simp [rowGet, ih, hkk, hpk]
    · rw [if_neg hpk]
      by_cases hpk' : p.1 = k'
      · have hkk : ¬k = k' := fun e => hpk (by rw [e]; exact hpk')
        simp [rowGet, hpk', hkk]
      · simp [rowGet, hpk, hpk', ih]

theorem rowGet_append_single (r : Row) (k : String) (v : Value) (k' : String)
    (h : rowGet r k = none) :
    rowGet (r ++ [(k, v)]) k' = if k = k' then some v else rowGet r k' := by
  induction r with
  | nil => simp [rowGet]
  | cons p r ih =>
    rw [rowGet] at h
    by_cases hpk : p.1 = k
    · simp [hpk] at h
    · simp only [hpk, if_false] at h
      by_cases hpk' : p.1 = k' <;> by_cases hkk : k = k' <;>
        simp_all [rowGet, List.cons_append]

theorem rowGet_rowSet (r : Row) (k : String) (v : Value) (k' : String) :
    rowGet (rowSet r k v) k' = if k = k' then some v else rowGet r k' := by
  unfold rowSet
  by_cases h : hasKey r k
  · rw [if_pos h, rowGet_map_overwrite]
    rw [hasKey] at h
    obtain ⟨w, hw⟩ := Option.isSome_iff_exists.mp h
    by_cases hkk : k = k'
    · subst hkk; simp [hw]
    · simp [hkk]
  · rw [if_neg h]
    refine rowGet_append_single r k v k' ?_
    rw [hasKey] at h
    exact Option.not_isSome_iff_eq_none.mp h

theorem rowGet_rowUpdate (r u : Row) (k : String) (hu : (u.map Prod.fst).Nodup) :
    rowGet (rowUpdate r u) k = (rowGet u k).or (rowGet r k) := by
  induction u generalizing r with
  | nil => simp [rowUpdate, rowGet]
  | cons p u ih =>
    simp only [List.map_cons, List.nodup_cons] at hu
    have step : rowUpdate r (p :: u) = rowUpdate (rowSet r p.1 p.2) u := by
      simp [rowUpdate]
    rw [step, ih _ hu.2, rowGet_rowSet]
    by_cases hpk : p.1 = k
    · have : rowGet u k = none := by
        rw [rowGet_eq_none_iff]
        exact hpk ▸ hu.1
      simp [rowGet, hpk, this]
    · simp [rowGet, hpk]

/-- Characterization of the key tuple: the per-column lookups when every key
column is present, a `KeyError` otherwise. -/
theorem keyTuple_char (keys : List String) (r : Row) :
    keyTuple keys r =
      if keys.all (fun k => (rowGet r k).isSome) then
        .ok (keys.map (fun k => (rowGet r k).getD .null))
      else .error .keyError := by
  induction keys with
  | nil => simp [keyTuple]
  | cons k ks ih =>
    cases h : rowGet r k with
    | none => simp [keyTuple, h, List.all_cons]
    | some v =>
      by_cases hall : ks.all (fun k => (rowGet r k).isSome)
      · simp [keyTuple, h, List.all_cons, ih, hall, Except.map]
      · simp [keyTuple, h, List.all_cons, ih, hall, Except.map]

theorem str_append_right_cancel {s t u : String} (h : s ++ u = t ++ u) : s = t := by
  have hd : s.data ++ u.data = t.data ++ u.data := by
    have h2 := congrArg String.data h
    simpa [String.data_append] using h2
  have h3 := (List.append_inj' hd rfl).1
  cases s; cases t
  exact congrArg String.mk h3

theorem str_append_suffix_ne (s t : String) : s ++ "_1" ≠ t ++ "_2" := by
  intro h
  have hd : s.data ++ ['_', '1'] = t.data ++ ['_', '2'] := by
    have := congrArg String.data h
    simpa [String.data_append] using this
  have : (['_', '1'] : List Char) = ['_', '2'] := (List.append_inj' hd rfl).2
  simp at this

theorem rowGet_mergeNonKeyCols (nk : List String) (r : Row) (k : String) :
    rowGet (mergeNonKeyCols nk r) k = if k ∈ nk then none else rowGet r k := by
  induction r with
  | nil => simp [mergeNonKeyCols, rowGet]
  | cons p r ih =>
    rw [mergeNonKeyCols, List.filter_cons]
    rw [mergeNonKeyCols] at ih
    by_cases hpk : p.1 = k
    · subst hpk
      by_cases hc : p.1 ∈ nk
      · simp [hc] at ih ⊢
        exact ih
      · simp [hc, rowGet]
    · by_cases hc : p.1 ∈ nk
      · simp [hc, rowGet, hpk] at ih ⊢
        exact ih
      · simp [hc, rowGet, hpk] at ih ⊢
        exact ih

theorem rowGet_mergeCommonCols_hit (nk : List String) (r : Row) (suffix : String)
    (c : String) (hc : c ∈ nk) :
    rowGet (mergeCommonCols nk r suffix) (c ++ suffix) =
      some ((rowGet r c).getD .null) := by
  induction nk with
  | nil => cases hc
  | cons c0 nk ih =>
    rw [mergeCommonCols, List.map_cons, rowGet]
    by_cases h0 : c0 = c
    · subst h0; simp
    · have hne : ¬(c0 ++ suffix = c ++ suffix) := fun e => h0 (str_append_right_cancel e)
      rw [if_neg hne]
      exact ih ((List.mem_cons.mp hc).resolve_left (fun e => h0 e.symm))

theorem rowGet_mergeCommonCols_miss (nk : List String) (r : Row) (suffix : String)
    (q : String) (hq : ∀ c ∈ nk, q ≠ c ++ suffix) :
    rowGet (mergeCommonCols nk r suffix) q = none := by
  induction nk with
  | nil => simp [mergeCommonCols, rowGet]
  | cons c0 nk ih =>
    rw [mergeCommonCols, List.map_cons, rowGet]
    rw [if_neg (fun e => hq c0 (List.mem_cons_self c0 nk) e.symm)]
    exact ih (fun c hc => hq c (List.mem_cons_of_mem c0 hc))

/-- Whether the comparison succeeded. -/
def isOkB : Except PyErr Bool → Bool
  | .ok _ => true
  | .error _ => false

theorem pyEq_symm (a b : Value) : pyEq a b = pyEq b a := by
  cases a <;> cases b <;> simp [pyEq, toRat?, eq_comm]

theorem pyLt_trichotomy (a b : Value) (x y : Bool)
    (hab : pyLt a b = .ok x) (hba : pyLt b a = .ok y) :
    pyEq a b = true ↔ (x = false ∧ y = false) := by
  cases a <;> cases b <;>
    simp only [pyLt, pyEq, toRat?, Except.ok.injEq] at hab hba ⊢
  all_goals try exact Except.noConfusion hab
  all_goals subst hab
  all_goals subst hba
  all_goals simp only [decide_eq_true_eq, decide_eq_false_iff_not, not_lt]
  all_goals exact ⟨fun h => h ▸ ⟨le_refl _, le_refl _⟩, fun h => le_antisymm h.2 h.1⟩

theorem pyLt_asymm (a b : Value)
    (hab : pyLt a b = .ok true) (hba : pyLt b a = .ok true) : False := by
  cases a <;> cases b <;>
    simp only [pyLt, toRat?, Except.ok.injEq, decide_eq_true_eq] at hab hba
  all_goals try exact Except.noConfusion hab
  all_goals exact lt_asymm hab hba

theorem tupLt_trichotomy : ∀ (ka kb : List Value) (x y : Bool),
    tupLt ka kb = .ok x → tupLt kb ka = .ok y →
    (pyEqList ka kb = true ↔ (x = false ∧ y = false)) := by
  intro ka
  induction ka with
  | nil =>
    intro kb x y hab hba
    cases kb <;> simp_all [tupLt, pyEqList]
  | cons a as ih =>
    intro kb x y hab hba
    cases kb with
    | nil => simp_all [tupLt, pyEqList]
    | cons b bs =>
      rw [tupLt] at hab hba
      by_cases he : pyEq a b = true
      · have he' : pyEq b a = true := (pyEq_symm a b) ▸ he
        rw [if_pos he] at hab
        rw [if_pos he'] at hba
        simpa [pyEqList, he] using ih bs x y hab hba
      · have he' : ¬pyEq b a = true := (pyEq_symm a b) ▸ he
        rw [if_neg he] at hab
        rw [if_neg he'] at hba
        have hv := pyLt_trichotomy a b x y hab hba
        have hef : pyEq a b = false := by
          cases hq : pyEq a b
          · rfl
          · exact absurd hq he
        simp only [pyEqList, hef, Bool.false_and]
        constructor
        · intro hfalse
          exact absurd hfalse (by simp)
        · intro hxy
          exact absurd (hv.mpr hxy) he

theorem tupLt_asymm : ∀ (ka kb : List Value),
    tupLt ka kb = .ok true → tupLt kb ka = .ok true → False := by
  intro ka
  induction ka with
  | nil =>
    intro kb hab hba
    cases kb <;> simp_all [tupLt]
  | cons a as ih =>
    intro kb hab hba
    cases kb with
    | nil => simp_all [tupLt]
    | cons b bs =>
      rw [tupLt] at hab hba
      by_cases he : pyEq a b = true
      · have he' : pyEq b a = true := (pyEq_symm a b) ▸ he
        rw [if_pos he] at hab
        rw [if_pos he'] at hba
        exact ih bs hab hba
      · have he' : ¬pyEq b a = true := (pyEq_symm a b) ▸ he
        rw [if_neg he] at hab
        rw [if_neg he'] at hba
        exact pyLt_asymm a b hab hba

theorem mem_nonKeyCols (keys : List String) (ra rb : Row) (c : String) :
    c ∈ nonKeyCols keys ra rb ↔
      (hasKey ra c = true ∧ hasKey rb c = true ∧ c ∉ keys) := by
  simp [nonKeyCols, List.mem_filter, hasKey_iff_mem]

/-- The merged row of `Joiner.join`, column by column: the four `dict.update`
layers are consulted from the last applied to the first. -/
theorem rowGet_joinerJoin (sa sb : String) (keys : List String) (ra rb : Row) (q : String)
    (hna : (ra.map Prod.fst).Nodup) (hnb : (rb.map Prod.fst).Nodup) :
    rowGet (joinerJoin sa sb keys ra rb) q =
      ((rowGet (mergeCommonCols (nonKeyCols keys ra rb) rb sb) q).or
        ((rowGet (mergeCommonCols (nonKeyCols keys ra rb) ra sa) q).or
          ((rowGet (mergeNonKeyCols (nonKeyCols keys ra rb) rb) q).or
            (rowGet (mergeNonKeyCols (nonKeyCols keys ra rb) ra) q)))) := by
  have hnk : (nonKeyCols keys ra rb).Nodup := hna.filter _
  have h1 : ((mergeNonKeyCols (nonKeyCols keys ra rb) ra).map Prod.fst).Nodup :=
    hna.sublist ((List.filter_sublist ra).map Prod.fst)
  have h2 : ((mergeNonKeyCols (nonKeyCols keys ra rb) rb).map Prod.fst).Nodup :=
    hnb.sublist ((List.filter_sublist rb).map Prod.fst)
  have hcm : ∀ (r : Row) (s : String),
      ((mergeCommonCols (nonKeyCols keys ra rb) r s).map Prod.fst).Nodup := by
    intro r s
    rw [mergeCommonCols, List.map_map]
    exact hnk.map (fun a b h => str_append_right_cancel h)
  unfold joinerJoin
  rw [rowGet_rowUpdate _ _ _ (hcm rb sb), rowGet_rowUpdate _ _ _ (hcm ra sa),
    rowGet_rowUpdate _ _ _ h2, rowGet_rowUpdate _ _ _ h1]
  simp [emptyRow, rowGet]

/-- The inner loop of `InnerJoiner`: with a fixed left row, the guarded
`filterMap` over the right group keeps exactly the non-empty right rows (and
nothing when the left row is empty). -/
theorem innerJoiner_inner_loop (sa sb : String) (keys : List String) (a : Row)
    (B : List Row) :
    B.filterMap (fun b =>
        if !b.isEmpty && !a.isEmpty then some (joinerJoin sa sb keys a b) else none) =
      if a.isEmpty then []
      else (B.filter (fun b => !b.isEmpty)).map (fun b => joinerJoin sa sb keys a b) := by
  induction B with
  | nil => cases ha : a.isEmpty <;> simp [ha]
  | cons b B ih =>
    rw [List.filterMap_cons, List.filter_cons, ih]
    cases hb : b.isEmpty <;> cases ha : a.isEmpty <;> simp [hb, ha]

/-- `InnerJoiner` emits, in left-major cross-product order, one merged row per
pair of non-empty rows, and skips every pair involving an empty row. -/
theorem innerJoiner_char (sa sb : String) (keys : List String) (A B : List Row) :
    innerJoiner sa sb keys A B =
      (A.filter (fun a => !a.isEmpty)).flatMap
        (fun a => (B.filter (fun b => !b.isEmpty)).map (fun b => joinerJoin sa sb keys a b)) := by
  unfold innerJoiner
  induction A with
  | nil => rfl
  | cons a A ih =>
    rw [List.flatMap_cons, innerJoiner_inner_loop, List.filter_cons, ih]
    by_cases ha : a.isEmpty <;> simp [ha, List.flatMap_cons]

/-- With enough fuel, the source's merge loop computes exactly the
specification's lockstep walk, provided every cross-stream comparison of
current group keys is defined. -/
theorem joinLoopF_eq_walk (J : List String → List Row → List Row → List Row)
    (keys : List String) : ∀ (n : Nat) (ga gb : List (List Value × List Row)),
    ga.length + gb.length ≤ n →
    (∀ ka ∈ ga.map Prod.fst, ∀ kb ∈ gb.map Prod.fst,
        isOkB (tupLt ka kb) = true ∧ isOkB (tupLt kb ka) = true) →
    joinLoopF J keys n ga gb = .ok (joinWalk J keys ga gb) := by
  intro n
  induction n with
  | zero =>
    intro ga gb hlen hcmp
    cases ga with
    | nil =>
      cases gb with
      | nil => simp [joinLoopF, joinWalk]
      | cons g gb => simp at hlen
    | cons g ga => simp at hlen
  | succ n ih =>
    intro ga gb hlen hcmp
    cases ga with
    | nil =>
      cases gb with
      | nil => simp [joinLoopF, joinWalk]
      | cons gb0 gb =>
        obtain ⟨kb, B⟩ := gb0
        have hlen' : ([] : List (List Value × List Row)).length + gb.length ≤ n := by
          simp at hlen ⊢
          omega
        have hcmp' : ∀ ka ∈ ([] : List (List Value × List Row)).map Prod.fst,
            ∀ kb' ∈ gb.map Prod.fst,
            isOkB (tupLt ka kb') = true ∧ isOkB (tupLt kb' ka) = true :=
          fun ka hka => absurd hka (by simp)
        rw [joinLoopF, ih [] gb hlen' hcmp']
        simp [joinWalk, Bind.bind, Except.bind]
    | cons ga0 ga =>
      obtain ⟨ka, A⟩ := ga0
      cases gb with
      | nil =>
        have hlen' : ga.length + ([] : List (List Value × List Row)).length ≤ n := by
          simp at hlen ⊢
          omega
        have hcmp' : ∀ ka' ∈ ga.map Prod.fst,
            ∀ kb ∈ ([] : List (List Value × List Row)).map Prod.fst,
            isOkB (tupLt ka' kb) = true ∧ isOkB (tupLt kb ka') = true :=
          fun ka' _ kb hkb => absurd hkb (by simp)
        rw [joinLoopF, ih ga [] hlen' hcmp']
        simp [joinWalk, Bind.bind, Except.bind]
      | cons gb0 gb =>
        obtain ⟨kb, B⟩ := gb0
        obtain ⟨hab', hba'⟩ := hcmp ka (by simp) kb (by simp)
        cases hx : tupLt ka kb with
        | error e =>
          rw [hx] at hab'
          simp [isOkB] at hab'
        | ok x =>
        cases hy : tupLt kb ka with
        | error e =>
          rw [hy] at hba'
          simp [isOkB] at hba'
        | ok y =>
        have tri := tupLt_trichotomy ka kb x y hx hy
        have hlenA : ga.length + ((kb, B) :: gb).length ≤ n := by
          simp at hlen ⊢
          omega
        have hlenB : ((ka, A) :: ga).length + gb.length ≤ n := by
          simp at hlen ⊢
          omega
        have hlenAB : ga.length + gb.length ≤ n := by
          simp at hlen ⊢
          omega
        have hcmpA : ∀ ka' ∈ ga.map Prod.fst, ∀ kb' ∈ ((kb, B) :: gb).map Prod.fst,
            isOkB (tupLt ka' kb') = true ∧ isOkB (tupLt kb' ka') = true :=
          fun ka' h1 kb' h2 => hcmp ka' (List.mem_cons_of_mem _ h1) kb' h2
        have hcmpB : ∀ ka' ∈ ((ka, A) :: ga).map Prod.fst, ∀ kb' ∈ gb.map Prod.fst,
            isOkB (tupLt ka' kb') = true ∧ isOkB (tupLt kb' ka') = true :=
          fun ka' h1 kb' h2 => hcmp ka' h1 kb' (List.mem_cons_of_mem _ h2)
        have hcmpAB : ∀ ka' ∈ ga.map Prod.fst, ∀ kb' ∈ gb.map Prod.fst,
            isOkB (tupLt ka' kb') = true ∧ isOkB (tupLt kb' ka') = true :=
          fun ka' h1 kb' h2 =>
            hcmp ka' (List.mem_cons_of_mem _ h1) kb' (List.mem_cons_of_mem _ h2)
        cases x with
        | true =>
          have he : pyEqList ka kb = false := by
            cases hq : pyEqList ka kb
            · rfl
            · have := tri.mp hq
              simp at this
          rw [joinLoopF, hx, ih ga ((kb, B) :: gb) hlenA hcmpA]
          simp [joinWalk, he, hx, Bind.bind, Except.bind, Except.toOption]
        | false =>
          cases y with
          | true =>
            have he : pyEqList ka kb = false := by
              cases hq : pyEqList ka kb
              · rfl
              · have := tri.mp hq
                simp at this
            rw [joinLoopF, hx, hy, ih ((ka, A) :: ga) gb hlenB hcmpB]
            simp [joinWalk, he, hx, hy, Bind.bind, Except.bind, Except.toOption]
          | false =>
            have he : pyEqList ka kb = true := tri.mpr ⟨rfl, rfl⟩
            rw [joinLoopF, hx, hy, ih ga gb hlenAB hcmpAB]
            simp [joinWalk, he, Bind.bind, Except.bind]

/-! ## Claims -/

/-- C1 — for sorted streams whose group keys are pairwise comparable, `Join`
walks the two streams' maximal equal-key runs in lockstep exactly as the
specification says: equal keys — joiner on both groups, advance both; `A`
smaller or `B` exhausted — joiner on `(groupA, [{}])`, advance `A`;
symmetrically for `B`; the output is the concatenation of the joiner's
outputs in this order (`joinWalk`). -/
theorem c1_join_lockstep (J : List String → List Row → List Row → List Row)
    (keys : List String) (A B : List Row) (ga gb : List (List Value × List Row))
    (hA : sortedByKeys keys A = true) (hB : sortedByKeys keys B = true)
    (hga : groupRuns keys A = .ok ga) (hgb : groupRuns keys B = .ok gb)
    (hcmp : ∀ ka ∈ ga.map Prod.fst, ∀ kb ∈ gb.map Prod.fst,
        isOkB (tupLt ka kb) = true ∧ isOkB (tupLt kb ka) = true) :
    joinRun J keys A B = .ok (joinWalk J keys ga gb) := by
  unfold joinRun
  rw [hga, hgb]
  simp only [Bind.bind, Except.bind, joinLoop]
  exact joinLoopF_eq_walk J keys _ ga gb le_rfl hcmp

/-- Witness for C1 at the streams `[{k:1}], [{k:3}]` and `[{k:2}]` joined on
`k` with the inner joiner. -/
theorem c1_join_lockstep_witness :
    sortedByKeys ["k"] [[("k", Value.int 1)], [("k", Value.int 3)]] = true ∧
    sortedByKeys ["k"] [[("k", Value.int 2)]] = true ∧
    groupRuns ["k"] [[("k", Value.int 1)], [("k", Value.int 3)]] =
      .ok [([Value.int 1], [[("k", Value.int 1)]]), ([Value.int 3], [[("k", Value.int 3)]])] ∧
    groupRuns ["k"] [[("k", Value.int 2)]] =
      .ok [([Value.int 2], [[("k", Value.int 2)]])] ∧
    (∀ ka ∈ [([Value.int 1], [[("k", Value.int 1)]]),
        ([Value.int 3], [[("k", Value.int 3)]])].map Prod.fst,
      ∀ kb ∈ [([Value.int 2], [[("k", Value.int 2)]])].map Prod.fst,
        isOkB (tupLt ka kb) = true ∧ isOkB (tupLt kb ka) = true) ∧
    joinRun (innerJoiner "_1" "_2") ["k"]
        [[("k", Value.int 1)], [("k", Value.int 3)]] [[("k", Value.int 2)]] =
      .ok (joinWalk (innerJoiner "_1" "_2") ["k"]
        [([Value.int 1], [[("k", Value.int 1)]]), ([Value.int 3], [[("k", Value.int 3)]])]
        [([Value.int 2], [[("k", Value.int 2)]])]) :=
  ⟨rfl, rfl, rfl, rfl, by decide,
    c1_join_lockstep (innerJoiner "_1" "_2") ["k"]
      [[("k", Value.int 1)], [("k", Value.int 3)]] [[("k", Value.int 2)]]
      [([Value.int 1], [[("k", Value.int 1)]]), ([Value.int 3], [[("k", Value.int 3)]])]
      [([Value.int 2], [[("k", Value.int 2)]])] rfl rfl rfl rfl (by decide)⟩

/-- C2 counterexample — merging `a = {c:1, c_1:5}` with `b = {c:2}` under the
empty key list and default suffixes: the collision column `c` is renamed to
`c_1`, overwriting the value of column `c_1`, which is present only in `a`
and so was claimed to keep its original name and value. -/
theorem c2_collision_merge_counterexample :
    joinerJoin "_1" "_2" [] [("c", .int 1), ("c_1", .int 5)] [("c", .int 2)] =
      [("c_1", .int 1), ("c_2", .int 2)] ∧
    rowGet (joinerJoin "_1" "_2" [] [("c", .int 1), ("c_1", .int 5)] [("c", .int 2)]) "c_1" ≠
      rowGet [("c", .int 1), ("c_1", .int 5)] "c_1" :=
  ⟨rfl, by decide⟩

/-- C2 amended — for every merge of rows `a` and `b` (dicts, so with distinct
column names) under join keys `K` and default suffixes, provided no column of
either row is named `c + "_1"` or `c + "_2"` for a collision column `c`:
every column `c` in both rows and not in `K` appears as `c_1` holding `a`'s
value and `c_2` holding `b`'s value while the bare name `c` is absent, and
every column present in only one of the two rows keeps its original name and
value. -/
theorem c2_collision_merge_amended (keys : List String) (ra rb : Row)
    (hna : (ra.map Prod.fst).Nodup) (hnb : (rb.map Prod.fst).Nodup)
    (hH : ∀ k ∈ ra.map Prod.fst ++ rb.map Prod.fst, ∀ c ∈ ra.map Prod.fst,
        hasKey rb c = true → c ∉ keys → k ≠ c ++ "_1" ∧ k ≠ c ++ "_2") :
    (∀ c, hasKey ra c = true → hasKey rb c = true → c ∉ keys →
        rowGet (joinerJoin "_1" "_2" keys ra rb) (c ++ "_1") = rowGet ra c ∧
        rowGet (joinerJoin "_1" "_2" keys ra rb) (c ++ "_2") = rowGet rb c ∧
        rowGet (joinerJoin "_1" "_2" keys ra rb) c = none) ∧
    (∀ k, hasKey ra k = true → hasKey rb k = false →
        rowGet (joinerJoin "_1" "_2" keys ra rb) k = rowGet ra k) ∧
    (∀ k, hasKey ra k = false → hasKey rb k = true →
        rowGet (joinerJoin "_1" "_2" keys ra rb) k = rowGet rb k) := by
  have master := fun q => rowGet_joinerJoin "_1" "_2" keys ra rb q hna hnb
  have missH : ∀ k, k ∈ ra.map Prod.fst ++ rb.map Prod.fst →
      (∀ c' ∈ nonKeyCols keys ra rb, k ≠ c' ++ "_1") ∧
      (∀ c' ∈ nonKeyCols keys ra rb, k ≠ c' ++ "_2") := by
    intro k hk
    constructor <;> intro c' hc' <;>
      obtain ⟨ha', hb', hkeys'⟩ := (mem_nonKeyCols keys ra rb c').mp hc'
    · exact (hH k hk c' ((hasKey_iff_mem ra c').mp ha') hb' hkeys').1
    · exact (hH k hk c' ((hasKey_iff_mem ra c').mp ha') hb' hkeys').2
  refine ⟨?_, ?_, ?_⟩
  · intro c h1 h2 h3
    have hcnk : c ∈ nonKeyCols keys ra rb := (mem_nonKeyCols keys ra rb c).mpr ⟨h1, h2, h3⟩
    obtain ⟨va, hva⟩ := Option.isSome_iff_exists.mp h1
    obtain ⟨vb, hvb⟩ := Option.isSome_iff_exists.mp h2
    have hcmem : c ∈ ra.map Prod.fst ++ rb.map Prod.fst :=
      List.mem_append_left _ ((hasKey_iff_mem ra c).mp h1)
    refine ⟨?_, ?_, ?_⟩
    · rw [master (c ++ "_1"),
        rowGet_mergeCommonCols_miss _ _ _ _ (fun c' _ => str_append_suffix_ne c c'),
        rowGet_mergeCommonCols_hit _ _ _ _ hcnk]
      simp [hva]
    · rw [master (c ++ "_2"), rowGet_mergeCommonCols_hit _ _ _ _ hcnk]
      simp [hvb]
    · rw [master c,
        rowGet_mergeCommonCols_miss _ _ _ _ (missH c hcmem).2,
        rowGet_mergeCommonCols_miss _ _ _ _ (missH c hcmem).1,
        rowGet_mergeNonKeyCols, rowGet_mergeNonKeyCols]
      simp [hcnk]
  · intro k h1 h2
    have hkmem : k ∈ ra.map Prod.fst ++ rb.map Prod.fst :=
      List.mem_append_left _ ((hasKey_iff_mem ra k).mp h1)
    have hknk : k ∉ nonKeyCols keys ra rb := by
      rw [mem_nonKeyCols]
      simp [h2]
    have hrbk : rowGet rb k = none := by
      rw [hasKey] at h2
      exact Option.not_isSome_iff_eq_none.mp (by simp [h2])
    rw [master k,
      rowGet_mergeCommonCols_miss _ _ _ _ (missH k hkmem).2,
      rowGet_mergeCommonCols_miss _ _ _ _ (missH k hkmem).1,
      rowGet_mergeNonKeyCols, rowGet_mergeNonKeyCols]
    simp [hknk, hrbk]
  · intro k h1 h2
    have hkmem : k ∈ ra.map Prod.fst ++ rb.map Prod.fst :=
      List.mem_append_right _ ((hasKey_iff_mem rb k).mp h2)
    have hknk : k ∉ nonKeyCols keys ra rb := by
      rw [mem_nonKeyCols]
      simp [h1]
    obtain ⟨vb, hvb⟩ := Option.isSome_iff_exists.mp h2
    rw [master k,
      rowGet_mergeCommonCols_miss _ _ _ _ (missH k hkmem).2,
      rowGet_mergeCommonCols_miss _ _ _ _ (missH k hkmem).1,
      rowGet_mergeNonKeyCols, rowGet_mergeNonKeyCols]
    simp [hknk, hvb]

/-- Witness for C2 at Scenario E's rows `{k:1, v:10}` and `{k:1, v:20}`
joined on `k`. -/
theorem c2_collision_merge_amended_witness :
    (([("k", Value.int 1), ("v", Value.int 10)].map Prod.fst).Nodup) ∧
    (([("k", Value.int 1), ("v", Value.int 20)].map Prod.fst).Nodup) ∧
    (∀ k ∈ [("k", Value.int 1), ("v", Value.int 10)].map Prod.fst ++
        [("k", Value.int 1), ("v", Value.int 20)].map Prod.fst,
      ∀ c ∈ [("k", Value.int 1), ("v", Value.int 10)].map Prod.fst,
        hasKey [("k", Value.int 1), ("v", Value.int 20)] c = true → c ∉ ["k"] →
          k ≠ c ++ "_1" ∧ k ≠ c ++ "_2") ∧
    ((∀ c, hasKey [("k", Value.int 1), ("v", Value.int 10)] c = true →
        hasKey [("k", Value.int 1), ("v", Value.int 20)] c = true → c ∉ ["k"] →
        rowGet (joinerJoin "_1" "_2" ["k"] [("k", Value.int 1), ("v", Value.int 10)]
          [("k", Value.int 1), ("v", Value.int 20)]) (c ++ "_1") =
          rowGet [("k", Value.int 1), ("v", Value.int 10)] c ∧
        rowGet (joinerJoin "_1" "_2" ["k"] [("k", Value.int 1), ("v", Value.int 10)]
          [("k", Value.int 1), ("v", Value.int 20)]) (c ++ "_2") =
          rowGet [("k", Value.int 1), ("v", Value.int 20)] c ∧
        rowGet (joinerJoin "_1" "_2" ["k"] [("k", Value.int 1), ("v", Value.int 10)]
          [("k", Value.int 1), ("v", Value.int 20)]) c = none) ∧
    (∀ k, hasKey [("k", Value.int 1), ("v", Value.int 10)] k = true →
        hasKey [("k", Value.int 1), ("v", Value.int 20)] k = false →
        rowGet (joinerJoin "_1" "_2" ["k"] [("k", Value.int 1), ("v", Value.int 10)]
          [("k", Value.int 1), ("v", Value.int 20)]) k =
          rowGet [("k", Value.int 1), ("v", Value.int 10)] k) ∧
    (∀ k, hasKey [("k", Value.int 1), ("v", Value.int 10)] k = false →
        hasKey [("k", Value.int 1), ("v", Value.int 20)] k = true →
        rowGet (joinerJoin "_1" "_2" ["k"] [("k", Value.int 1), ("v", Value.int 10)]
          [("k", Value.int 1), ("v", Value.int 20)]) k =
          rowGet [("k", Value.int 1), ("v", Value.int 20)] k)) :=
  ⟨by decide, by decide, by decide,
    c2_collision_merge_amended ["k"] [("k", Value.int 1), ("v", Value.int 10)]
      [("k", Value.int 1), ("v", Value.int 20)] (by decide) (by decide) (by decide)⟩

/-- C3 counterexample — a matched pair of key groups (both key tuples are the
empty tuple, under the empty key list) for which the inner join does not emit
one merged row per pair: the group pair `([{}], [{y:2}])` has exactly one
pair of rows, yet `Join` with `InnerJoiner` emits no row at all. -/
theorem c3_inner_join_counterexample :
    joinRun (innerJoiner "_1" "_2") [] [emptyRow] [[("y", .int 2)]] = .ok [] ∧
    ([] : List Row) ≠ [joinerJoin "_1" "_2" [] emptyRow [("y", .int 2)]] :=
  ⟨rfl, by decide⟩

/-- C3 amended — for every pair of matched key groups, an inner join emits
exactly one merged row per pair of *non-empty* rows `(a ∈ groupA, b ∈
groupB)`, in left-major cross-product order, skipping every pair that
involves an empty row; and it emits nothing for groups whose key is present
on only one side (which `Join` hands to the joiner with a single empty
counterpart row `[{}]`). -/
theorem c3_inner_join_amended (sa sb : String) (keys : List String) (A B G : List Row) :
    innerJoiner sa sb keys A B =
      (A.filter (fun a => !a.isEmpty)).flatMap
        (fun a => (B.filter (fun b => !b.isEmpty)).map (fun b => joinerJoin sa sb keys a b)) ∧
    innerJoiner sa sb keys G [emptyRow] = [] ∧
    innerJoiner sa sb keys [emptyRow] G = [] := by
  refine ⟨innerJoiner_char sa sb keys A B, ?_, ?_⟩ <;>
    simp [innerJoiner_char, emptyRow, List.filter_cons]

/-- C10 — a pair in which either row is the empty row produces no merged
output even though the group keys match: deleting an empty row from either
group leaves the inner join's output unchanged.  Such empty rows reach
matched groups when joining on the empty key list (every key tuple is `()`),
as the concrete `Join` run shows: the empty left row contributes nothing,
silently. -/
theorem c10_inner_join_skips_empty_rows :
    (∀ (sa sb : String) (keys : List String) (A B : List Row),
        innerJoiner sa sb keys (emptyRow :: A) B = innerJoiner sa sb keys A B) ∧
    (∀ (sa sb : String) (keys : List String) (A B : List Row),
        innerJoiner sa sb keys A (emptyRow :: B) = innerJoiner sa sb keys A B) ∧
    joinRun (innerJoiner "_1" "_2") [] [emptyRow, [("x", .int 1)]] [[("y", .int 2)]] =
      .ok [[("x", .int 1), ("y", .int 2)]] := by
  refine ⟨?_, ?_, rfl⟩ <;> intro sa sb keys A B <;>
    simp [innerJoiner_char, emptyRow, List.filter_cons]

/-- C4 — For the inputs `A=[{k:1,a:10},{k:3,a:30}]` and
`B=[{k:2,b:20},{k:3,b:33}]`, an outer join on key `k` yields exactly, in key
order, `{k:1,a:10}`, `{k:2,b:20}`, `{k:3,a:30,b:33}`; in particular the
right-only row with `k=2` is emitted and not dropped. -/
theorem c4_outer_join_scenario_f :
    joinRun (outerJoiner "_1" "_2") ["k"]
      [[("k", .int 1), ("a", .int 10)], [("k", .int 3), ("a", .int 30)]]
      [[("k", .int 2), ("b", .int 20)], [("k", .int 3), ("b", .int 33)]] =
    .ok [[("k", .int 1), ("a", .int 10)],
         [("k", .int 2), ("b", .int 20)],
         [("k", .int 3), ("a", .int 30), ("b", .int 33)]] := rfl

/-- C5 counterexample — a key column missing from the row does not yield a
null component: the key-tuple computation (and hence `Reduce`) raises
`KeyError` on the concrete row `{x: 1}` grouped by the key list `["q"]`. -/
theorem c5_missing_key_counterexample :
    keyTuple ["q"] [("x", .int 1)] ≠ .ok [Value.null] ∧
    keyTuple ["q"] [("x", .int 1)] = .error .keyError ∧
    reduceRun firstReducer ["q"] [[("x", .int 1)]] = .error .keyError := by
  refine ⟨?_, rfl, rfl⟩
  intro h
  exact nomatch h

/-- C5 amended — the key tuple computed during grouping is
`(row[k₁],…,row[kₘ])` when every key column is present; a key column missing
from the row raises a `KeyError` (a failure of the grouping), not a null
component. -/
theorem c5_key_tuple_amended (keys : List String) (r : Row) :
    keyTuple keys r =
      if keys.all (fun k => (rowGet r k).isSome) then
        .ok (keys.map (fun k => (rowGet r k).getD .null))
      else .error .keyError :=
  keyTuple_char keys r

/-- C7 — running a graph whose source is an iterator source named `n` with a
source map lacking `n` surfaces a `KeyError` to the caller of `run` and
yields no rows: the result is an error, not an empty stream. -/
theorem c7_unknown_source_fatal (n : String) (rest : List Op) (joins : List Graph)
    (kwargs : List (String × List Row)) (h : kwargs.lookup n = none) :
    Graph.run (.mk (.readIter n :: rest) joins) kwargs = .error .keyError := by
  simp [Graph.run, runSourceOp, h, Bind.bind, Except.bind]

/-- Witness for C7 at a concrete graph and source map. -/
theorem c7_unknown_source_fatal_witness :
    ([(("a" : String), ([] : List Row))].lookup "b" = none) ∧
    Graph.run (.mk [.readIter "b"] []) [("a", [])] = .error .keyError :=
  ⟨rfl, c7_unknown_source_fatal "b" [] [] [("a", [])] rfl⟩

/-- C8 counterexample — on a row whose time column is zero, `Speed` raises
the bare `ZeroDivisionError`: two rows with different key columns produce the
very same error value, so the failure carries no information about the
offending row's key columns. -/
theorem c8_untyped_division_counterexample :
    speedRun "distance" "time" "speed"
      [("k", .int 7), ("distance", .int 10), ("time", .int 0)] =
      .error .zeroDivisionError ∧
    speedRun "distance" "time" "speed"
      [("k", .int 8), ("distance", .int 3), ("time", .int 0)] =
      .error .zeroDivisionError :=
  ⟨rfl, rfl⟩

/-- C8 amended — for every row whose time column holds a numeric zero (and
whose distance column holds a numeric value), `Speed` surfaces the untyped
`ZeroDivisionError`, which carries no row information, instead of yielding a
row. -/
theorem c8_speed_zero_division_amended (distance time resultColumn : String)
    (r : Row) (d t : Value) (x : ℚ)
    (hd : rowGet r distance = some d) (ht : rowGet r time = some t)
    (hx : toRat? d = some x) (h0 : toRat? t = some 0) :
    speedRun distance time resultColumn r = .error .zeroDivisionError := by
  simp [speedRun, getItem, hd, ht, pyDiv, hx, h0, Bind.bind, Except.bind]

/-- Witness for C8 at a concrete row. -/
theorem c8_speed_zero_division_amended_witness :
    rowGet [("distance", Value.int 10), ("time", Value.int 0)] "distance" =
      some (Value.int 10) ∧
    rowGet [("distance", Value.int 10), ("time", Value.int 0)] "time" =
      some (Value.int 0) ∧
    toRat? (Value.int 10) = some 10 ∧
    toRat? (Value.int 0) = some 0 ∧
    speedRun "distance" "time" "speed" [("distance", Value.int 10), ("time", Value.int 0)] =
      .error .zeroDivisionError :=
  ⟨rfl, rfl, rfl, rfl,
    c8_speed_zero_division_amended "distance" "time" "speed" _ _ _ 10 rfl rfl rfl rfl⟩

/-- C6 counterexample — the comparison deciding which cursor to advance is
Python's `<` and is *not* defined across type tags: joining two streams, each
sorted by `k`, whose current keys are the integer `1` and the string `"a"`,
the merge fails with a `TypeError` instead of ordering them by type tag. -/
theorem c6_mixed_type_counterexample :
    sortedByKeys ["k"] [[("k", .int 1)]] = true ∧
    sortedByKeys ["k"] [[("k", .str "a")]] = true ∧
    joinRun (innerJoiner "_1" "_2") ["k"] [[("k", .int 1)]] [[("k", .str "a")]] =
      .error .typeError :=
  ⟨rfl, rfl, rfl⟩

/-- C6 amended — the key comparison used by the `Join` merge is Python's:
within the numeric band (bool/int/float, compared as numbers) and between
strings it is defined, but between values of different type categories (e.g.
an integer and a string) it raises a `TypeError`, which aborts the merge —
the merge can fail on mixed-type key values. -/
theorem c6_comparison_amended :
    (∀ (a b : Value) (x y : ℚ), toRat? a = some x → toRat? b = some y →
        pyLt a b = .ok (decide (x < y))) ∧
    (∀ s t : String, pyLt (.str s) (.str t) = .ok (decide (s < t))) ∧
    (∀ (n : Int) (s : String),
        pyLt (.int n) (.str s) = .error .typeError ∧
        pyLt (.str s) (.int n) = .error .typeError) ∧
    (∀ (J : List String → List Row → List Row → List Row) (n : Int) (s : String),
        joinRun J ["k"] [[("k", .int n)]] [[("k", .str s)]] = .error .typeError) := by
  refine ⟨?_, fun s t => rfl, fun n s => ⟨rfl, rfl⟩, fun J n s => rfl⟩
  intro a b x y hx hy
  cases a <;> cases b <;> simp_all [pyLt, toRat?]

/-- Witness for the numeric-band clause of the C6 amended theorem. -/
theorem c6_comparison_amended_witness :
    toRat? (Value.int 1) = some 1 ∧ toRat? (Value.int 2) = some 2 ∧
    pyLt (Value.int 1) (Value.int 2) = .ok (decide ((1 : ℚ) < (2 : ℚ))) :=
  ⟨rfl, rfl, c6_comparison_amended.1 (Value.int 1) (Value.int 2) 1 2 rfl rfl⟩

/-- C9 — building from a graph never mutates it: on the heap model, each of
the four builder operations (map, reduce, sort, join) leaves the receiver's
store entry — hence its operator list and side-graph list, lengths and
elements — unchanged, and returns a reference to a new graph object. -/
theorem c9_builder_immutability (s : Store) (r : Nat) (h : r < s.length)
    (m : Row → Except PyErr (List Row)) (red : List String → List Row → List Row)
    (keys : List String) (J : List String → List Row → List Row → List Row)
    (other : Nat) :
    ((graphMapB s r m).1[r]? = s[r]? ∧ (graphMapB s r m).2 ≠ r) ∧
    ((graphReduceB s r red keys).1[r]? = s[r]? ∧ (graphReduceB s r red keys).2 ≠ r) ∧
    ((graphSortB s r keys).1[r]? = s[r]? ∧ (graphSortB s r keys).2 ≠ r) ∧
    ((graphJoinB s r J keys other).1[r]? = s[r]? ∧ (graphJoinB s r J keys other).2 ≠ r) := by
  have hr : s[r]? = some s[r] := List.getElem?_eq_getElem h
  refine ⟨?_, ?_, ?_, ?_⟩ <;>
    simp [graphMapB, graphReduceB, graphSortB, graphJoinB, hr,
      List.getElem?_append_left h, Nat.ne_of_gt h]

/-- Witness for C9 at a concrete one-object store. -/
theorem c9_builder_immutability_witness :
    0 < ([⟨[Op.readIter "src"], []⟩] : Store).length ∧
    (((graphMapB [⟨[Op.readIter "src"], []⟩] 0 (fun row => .ok [row])).1[0]? =
        ([⟨[Op.readIter "src"], []⟩] : Store)[0]? ∧
      (graphMapB [⟨[Op.readIter "src"], []⟩] 0 (fun row => .ok [row])).2 ≠ 0) ∧
    ((graphReduceB [⟨[Op.readIter "src"], []⟩] 0 firstReducer ["k"]).1[0]? =
        ([⟨[Op.readIter "src"], []⟩] : Store)[0]? ∧
      (graphReduceB [⟨[Op.readIter "src"], []⟩] 0 firstReducer ["k"]).2 ≠ 0) ∧
    ((graphSortB [⟨[Op.readIter "src"], []⟩] 0 ["k"]).1[0]? =
        ([⟨[Op.readIter "src"], []⟩] : Store)[0]? ∧
      (graphSortB [⟨[Op.readIter "src"], []⟩] 0 ["k"]).2 ≠ 0) ∧
    ((graphJoinB [⟨[Op.readIter "src"], []⟩] 0 (innerJoiner "_1" "_2") ["k"] 0).1[0]? =
        ([⟨[Op.readIter "src"], []⟩] : Store)[0]? ∧
      (graphJoinB [⟨[Op.readIter "src"], []⟩] 0 (innerJoiner "_1" "_2") ["k"] 0).2 ≠ 0)) :=
  ⟨by decide,
    c9_builder_immutability [⟨[Op.readIter "src"], []⟩] 0 (by decide)
      (fun row => .ok [row]) firstReducer ["k"] (innerJoiner "_1" "_2") 0⟩

end Compgraph
